import Mathlib

/-!
# Shallow embedding of the procrec process-tracking and sampling engine

This file models `src/main.rs` of the `procrec` repository: the
`TrackedProcess` handle (construction via `TryFrom<&Opts>`, `is_running`,
`Drop`), and the sampling loop in `main`.

Modelling conventions:
* OS interactions (spawning, `Process::new`, `try_wait`, `kill`, `wait`,
  psutil liveness and stats queries, the wall clock, ctrl-C delivery) are
  inputs supplied by environment records; the functions below mirror the
  control flow of the Rust source over those inputs.
* Rust panics (`unwrap`, `panic!`) are modelled as `Except.error` /
  a `panicked` stop kind; a panic aborts `main`, so nothing after it runs.
* `f32` time values are modelled as `ℚ` (absolute wall-clock instants and
  differences of them); `u64` values are `ℕ` with `/` the truncating
  `Nat` division, matching Rust `u64` division.
* Effects on OS processes (spawn, kill, blocking wait, non-blocking
  try_wait, psutil liveness query) are recorded in explicit effect lists so
  that theorems can speak about which process-affecting actions a code
  path performs.
-/

namespace Procrec

/-- Command-line options (`struct Opts` in `main.rs`); only reproduced
fields that reach the tracked-process handle or the sampling loop. -/
structure Opts where
  interval : ℕ
  duration : Option ℕ
  pid : Option ℕ
  verbose : Int
  graph : Bool
  scriptDump : Bool
  command : List String
deriving Repr, DecidableEq

/-- One measurement (`struct Sample` in `main.rs`): elapsed seconds since
the first accepted sample, pid, CPU percent, virtual and resident memory
(in the units produced by the loop body). -/
structure Sample where
  ts : ℚ
  pid : ℕ
  cpu : ℚ
  vsize : ℕ
  rss : ℕ
deriving Repr, DecidableEq

/-- `enum TrackedProcess`: either an external process opened from a
caller-supplied pid, or an internal (spawned) child together with the
psutil process handle opened on the child id. A `Process` object is
represented by its pid. -/
inductive TrackedProcess where
  | external (p : ℕ)
  | internal (p : ℕ) (childId : ℕ)
deriving Repr, DecidableEq

/-- Result of `std::process::Child::try_wait()` as supplied by the OS:
an error, an exit status (child exited), or still running. -/
inductive TryWaitResult where
  | err
  | exited (status : Int)
  | stillRunning
deriving Repr, DecidableEq

/-- OS answers consulted by `TrackedProcess::is_running`. -/
structure ProcEnv where
  tryWait : TryWaitResult
  osRunning : Bool
deriving Repr, DecidableEq

/-- Process-affecting (or process-querying) actions performed by
`is_running` / `drop`. `tryWaitChild` is the non-blocking join attempt,
`waitChild` the blocking reap, `killChild` the kill signal,
`osLivenessCheck` the read-only psutil `is_running` query. -/
inductive DropEffect where
  | tryWaitChild
  | osLivenessCheck
  | killChild
  | waitChild
deriving Repr, DecidableEq

/-- `TrackedProcess::is_running` (`main.rs` lines 140-152): for an
internal process, `try_wait` on the child — `Err` panics, `Ok(Some(_))`
is `false` (exit status ignored), `Ok(None)` is `true`; for an external
process, delegate to psutil `Process::is_running`. Returns the boolean
together with the effects performed, or an error for the panic. -/
def isRunningModel (tp : TrackedProcess) (env : ProcEnv) :
    Except String (Bool × List DropEffect) :=
  match tp with
  | .internal _ _ =>
    match env.tryWait with
    | .err => .error "Can not check if child process can be joined"
    | .exited _ => .ok (false, [.tryWaitChild])
    | .stillRunning => .ok (true, [.tryWaitChild])
  | .external _ => .ok (env.osRunning, [.osLivenessCheck])

/-- OS answers consulted during `Drop for TrackedProcess`. -/
structure DropEnv where
  penv : ProcEnv
  killOk : Bool
  waitOk : Bool
deriving Repr, DecidableEq

/-- `Drop for TrackedProcess` (`main.rs` lines 167-180): if
`is_running()` (which panics on a `try_wait` error), and the handle is
internal, `kill` the child; on kill failure warn (and do not wait); on
kill success `wait`, warning on wait failure. Returns the effects
performed and the warnings printed, or an error for a panic. -/
def dropModel (tp : TrackedProcess) (env : DropEnv) :
    Except String (List DropEffect × List String) :=
  match isRunningModel tp env.penv with
  | .error e => .error e
  | .ok (running, effs) =>
    if running then
      match tp with
      | .internal _ _ =>
        if env.killOk then
          if env.waitOk then
            .ok (effs ++ [.killChild, .waitChild], [])
          else
            .ok (effs ++ [.killChild, .waitChild],
              ["Warning: Can not join the child process after killing it"])
        else
          .ok (effs ++ [.killChild], ["Warning: can not kill child process"])
      | .external _ => .ok (effs, [])
    else
      .ok (effs, [])

/-- Construction-time effects on OS processes. -/
inductive CtorEffect where
  | spawnedChild (id : ℕ)
  | killedChild (id : ℕ)
  | reapedChild (id : ℕ)
deriving Repr, DecidableEq

/-- OS answers consulted by `TryFrom<&Opts> for TrackedProcess`:
whether `psutil::process::Process::new(pid)` succeeds for a given pid,
and whether `Command::spawn` succeeds (yielding the child's id). -/
structure CtorEnv where
  processNewOk : ℕ → Bool
  spawnResult : Option ℕ

/-- `TryFrom<&Opts> for TrackedProcess` (`main.rs` lines 94-127):
with `--pid`, open the process or fail with an access error; otherwise
require a non-empty command, spawn it, and open a psutil handle on the
child id — if opening fails the constructor returns an error (the spawned
child is merely dropped; dropping a `std::process::Child` performs no
kill or wait). The effect list records what happened to OS processes. -/
def tryFrom (opts : Opts) (env : CtorEnv) :
    Except String TrackedProcess × List CtorEffect :=
  match opts.pid with
  | some pid =>
    if env.processNewOk pid then
      (.ok (.external pid), [])
    else
      (.error "Failed accessing process", [])
  | none =>
    if opts.command.length = 0 then
      (.error "Process to record must be provided as additional argument or via --pid parameter", [])
    else
      match env.spawnResult with
      | some c =>
        if env.processNewOk c then
          (.ok (.internal c c), [.spawnedChild c])
        else
          (.error "Failed access created process", [.spawnedChild c])
      | none => (.error "Can not execute command", [])

/-- Per-iteration environment of the sampling loop: whether ctrl-C fires
during this iteration (between the top-of-loop flag check and the next
one, e.g. during the delay), the result of `is_running()` this tick, the
results of `cpu_percent()` and `memory_info()` (`none` is `Err`, making
the `unwrap` panic; memory is `(rss bytes, vms bytes)`), and the absolute
wall-clock instant at which the sample is taken. -/
structure TickEnv where
  cancelDuringDelay : Bool
  running : Bool
  cpuRes : Option ℚ
  memRes : Option (ℕ × ℕ)
  now : ℚ
deriving Repr, DecidableEq

/-- Mutable state of `main`'s sampling loop: the recording, the
`start : Option<SystemTime>` baseline, the shared `running : AtomicBool`
(true initially), and a count of the stores to that flag performed by
the loop body itself (as opposed to the ctrl-C handler). -/
structure LoopState where
  recording : List Sample
  start : Option ℚ
  flag : Bool
  loopFlagStores : ℕ
deriving Repr, DecidableEq

/-- Initial loop state: empty recording, no baseline, flag true (the
baseline `cpu_percent()` call at line 233 has no observable effect in
this model — its result is discarded unchecked). -/
def initState : LoopState := ⟨[], none, true, 0⟩

/-- How a run of the sampling loop ended: the while-condition saw a
cleared flag; the duration-limit `break` fired; an `unwrap` panicked; or
the supplied environment schedule was exhausted with the loop still
willing to continue. -/
inductive StopKind where
  | flagClear
  | brokeDuration
  | panicked (msg : String)
  | scheduleEnded
deriving Repr, DecidableEq

/-- `SystemTime::elapsed().unwrap()` relative to an optional baseline:
with no baseline yet, the timestamp is `0.0` and the baseline becomes the
current instant; with baseline `t`, a clock that went backwards makes the
`unwrap` panic (`none`), otherwise the timestamp is `now - t`. Returns
`(timestamp, new baseline)`. -/
def elapsedCalc (start : Option ℚ) (now : ℚ) : Option (ℚ × ℚ) :=
  match start with
  | some t => if now < t then none else some (now - t, t)
  | none => some (0, now)

/-- One iteration of the MAIN loop body (`main.rs` lines 248-278),
entered after the top-of-loop `while running.load()` check has already
passed. The delay happens first; if ctrl-C fires during this iteration
(`cancelDuringDelay`), the flag is cleared but this is only observed at
the NEXT top-of-loop check. Then: `if !is_running()` store `false` to
the shared flag (a loop-body write) and continue; otherwise
`cpu_percent().unwrap()` and `memory_info().unwrap()` (either `Err`
panics), compute the timestamp (setting the baseline at the first
sample), push the sample, and `break` if a configured duration is now
exceeded. `inl s'` means the `while` continues with state `s'`;
`inr (s', k)` means the loop terminates right now. -/
def loopStep (opts : Opts) (pid : ℕ) (e : TickEnv) (s : LoopState) :
    LoopState ⊕ (LoopState × StopKind) :=
  let flagAfterDelay := s.flag && !e.cancelDuringDelay
  if e.running = false then
    .inl { s with flag := false, loopFlagStores := s.loopFlagStores + 1 }
  else
    match e.cpuRes with
    | none =>
      .inr ({ s with flag := flagAfterDelay },
        .panicked "cpu_percent unwrap failed")
    | some cpu =>
      match e.memRes with
      | none =>
        .inr ({ s with flag := flagAfterDelay },
          .panicked "memory_info unwrap failed")
      | some mem =>
        match elapsedCalc s.start e.now with
        | none =>
          .inr ({ s with flag := flagAfterDelay },
            .panicked "elapsed unwrap failed")
        | some (ts, origin) =>
          let sample : Sample :=
            ⟨ts, pid, cpu, mem.2 / 1000, mem.1 / 1000⟩
          let s' : LoopState :=
            { s with recording := s.recording ++ [sample],
                     start := some origin,
                     flag := flagAfterDelay }
          match opts.duration with
          | some dur =>
            if ts > (dur : ℚ) then .inr (s', .brokeDuration)
            else .inl s'
          | none => .inl s'

/-- The MAIN phase of `main` (`main.rs` lines 247-279), one environment
record per iteration: `while running.load()` (top-of-loop flag check,
BEFORE the delay), then one `loopStep`; the schedule running out while
the loop would continue is reported as `scheduleEnded`. -/
def runLoop (opts : Opts) (pid : ℕ) :
    List TickEnv → LoopState → LoopState × StopKind
  | envs, s =>
    if s.flag = false then
      (s, .flagClear)
    else
      match envs with
      | [] => (s, .scheduleEnded)
      | e :: rest =>
        match loopStep opts pid e s with
        | .inl s' => runLoop opts pid rest s'
        | .inr r => r

/-- The POST phase of `main` (`main.rs` lines 281-291): the recording is
printed / handed to gnuplot only if the loop exited normally; a panic
unwinds out of `main`, so nothing is reported. -/
def postReport : LoopState × StopKind → Option (List Sample)
  | (_, .panicked _) => none
  | (s, _) => some s.recording

/-! ### Concrete inputs used in counterexamples and witnesses -/

/-- Options for a run with no duration limit, spawning a command. -/
def optsNoDur : Opts := ⟨2, none, none, 0, false, false, ["sleep", "60"]⟩

/-- Options for a run with a duration limit of 100 seconds. -/
def optsDur100 : Opts := ⟨2, some 100, none, 0, false, false, ["sleep", "60"]⟩

/-- An uneventful tick: target alive, stats available, wall clock at 5. -/
def tickOk : TickEnv := ⟨false, true, some 10, some (1234, 5678), 5⟩

/-- A tick during whose delay ctrl-C fires; the target is alive and
stats are available, wall clock at 7. -/
def tickCancel : TickEnv := ⟨true, true, some 20, some (2000, 3000), 7⟩

/-- A tick at which the target is found to have exited. -/
def tickDead : TickEnv := ⟨false, false, none, none, 9⟩

/-- A tick at which the target is reported running but `cpu_percent()`
returns an error. -/
def tickCpuErr : TickEnv := ⟨false, true, none, some (1, 1), 6⟩

/-- An uneventful tick with the wall clock at 205 (200 seconds after
`tickOk`). -/
def tickLate : TickEnv := ⟨false, true, some 30, some (4000, 9000), 205⟩

/-- The loop state after one successful measurement: the sample is
appended, the baseline is `origin`, and the flag keeps its value unless
ctrl-C fired during this iteration. -/
def sampledState (s : LoopState) (pid : ℕ) (e : TickEnv) (c : ℚ)
    (m : ℕ × ℕ) (ts origin : ℚ) : LoopState :=
  { s with recording := s.recording ++ [⟨ts, pid, c, m.2 / 1000, m.1 / 1000⟩],
           start := some origin,
           flag := s.flag && !e.cancelDuringDelay }

/-- Invariant of the sampling loop, relating the state to the remaining
schedule `envs`: sample timestamps are non-decreasing in capture order;
the first sample's timestamp is 0; the baseline exists iff a sample has
been taken; every remaining tick's clock instant is at or after the
baseline; and the last sample's timestamp is at most what any remaining
tick would produce. Only the recording and the baseline are
constrained — the flag and the store counter are irrelevant to it. -/
def LoopInv (envs : List TickEnv) (s : LoopState) : Prop :=
  List.Chain' (fun a b => a.ts ≤ b.ts) s.recording ∧
  (∀ x ∈ s.recording.head?, x.ts = 0) ∧
  (s.start = none ↔ s.recording = []) ∧
  (∀ t, s.start = some t → ∀ e ∈ envs, t ≤ e.now) ∧
  (∀ t, s.start = some t → ∀ l ∈ s.recording.getLast?, ∀ e ∈ envs,
    l.ts ≤ e.now - t)

/-! ### Theorems -/

/-- Shrinking the remaining schedule preserves the loop invariant. -/
theorem LoopInv.mono {envs envs' : List TickEnv} {s : LoopState}
    (h : LoopInv envs s) (hsub : ∀ e ∈ envs', e ∈ envs) :
    LoopInv envs' s := by
  obtain ⟨h1, h2, h3, h4, h5⟩ := h
  exact ⟨h1, h2, h3,
    fun t ht e he => h4 t ht e (hsub e he),
    fun t ht l hl e he => h5 t ht l hl e (hsub e he)⟩

/-- A state with the same recording and baseline satisfies the
loop invariant for the empty schedule. -/
theorem LoopInv.nil_of_fields {envs : List TickEnv} {s s' : LoopState}
    (h : LoopInv envs s) (hrec : s'.recording = s.recording)
    (hstart : s'.start = s.start) : LoopInv [] s' := by
  obtain ⟨h1, h2, h3, _, _⟩ := h
  refine ⟨by rw [hrec]; exact h1, by rw [hrec]; exact h2,
    by rw [hstart, hrec]; exact h3,
    fun t ht e he => absurd he (List.not_mem_nil e),
    fun t ht l hl e he => absurd he (List.not_mem_nil e)⟩

/-- If the shared flag is already cleared, the loop exits at the
top-of-loop check without consuming any of the schedule. -/
theorem runLoop_flag_false (opts : Opts) (pid : ℕ) (envs : List TickEnv)
    (s : LoopState) (h : s.flag = false) :
    runLoop opts pid envs s = (s, .flagClear) := by
  cases envs <;> simp [runLoop, h]

/-- The loop never changes the state once the schedule is exhausted. -/
theorem runLoop_nil_fst (opts : Opts) (pid : ℕ) (s : LoopState) :
    (runLoop opts pid [] s).1 = s := by
  by_cases h : s.flag = false <;> simp [runLoop, h]

/-- Unfolding one iteration while the flag is still set. -/
theorem runLoop_cons (opts : Opts) (pid : ℕ) (e : TickEnv)
    (rest : List TickEnv) (s : LoopState) (h : s.flag = true) :
    runLoop opts pid (e :: rest) s =
      (match loopStep opts pid e s with
       | .inl s' => runLoop opts pid rest s'
       | .inr r => r) := by
  simp [runLoop, h]

/-- Loop body on a tick that finds the target dead: store false to the
shared flag and continue (the next top-of-loop check then exits). -/
theorem loopStep_dead (opts : Opts) (pid : ℕ) (e : TickEnv) (s : LoopState)
    (hr : e.running = false) :
    loopStep opts pid e s =
      .inl { s with flag := false, loopFlagStores := s.loopFlagStores + 1 } := by
  simp [loopStep, hr]

/-- Loop body when `cpu_percent()` errs on a live tick: panic. -/
theorem loopStep_cpu_err (opts : Opts) (pid : ℕ) (e : TickEnv) (s : LoopState)
    (hr : e.running = true) (hcpu : e.cpuRes = none) :
    loopStep opts pid e s =
      .inr ({ s with flag := s.flag && !e.cancelDuringDelay },
        .panicked "cpu_percent unwrap failed") := by
  simp [loopStep, hr, hcpu]

/-- Loop body when `memory_info()` errs on a live tick: panic. -/
theorem loopStep_mem_err (opts : Opts) (pid : ℕ) (e : TickEnv) (s : LoopState)
    (c : ℚ) (hr : e.running = true) (hcpu : e.cpuRes = some c)
    (hmem : e.memRes = none) :
    loopStep opts pid e s =
      .inr ({ s with flag := s.flag && !e.cancelDuringDelay },
        .panicked "memory_info unwrap failed") := by
  simp [loopStep, hr, hcpu, hmem]

/-- Loop body when the wall clock regressed below the baseline: the
`elapsed().unwrap()` panics. -/
theorem loopStep_elapsed_err (opts : Opts) (pid : ℕ) (e : TickEnv)
    (s : LoopState) (c : ℚ) (m : ℕ × ℕ) (hr : e.running = true)
    (hcpu : e.cpuRes = some c) (hmem : e.memRes = some m)
    (helc : elapsedCalc s.start e.now = none) :
    loopStep opts pid e s =
      .inr ({ s with flag := s.flag && !e.cancelDuringDelay },
        .panicked "elapsed unwrap failed") := by
  simp [loopStep, hr, hcpu, hmem, helc]

/-- Loop body on a fully successful measurement tick: append exactly one
sample; break if a configured duration is now exceeded. -/
theorem loopStep_sample (opts : Opts) (pid : ℕ) (e : TickEnv) (s : LoopState)
    (c : ℚ) (m : ℕ × ℕ) (ts origin : ℚ) (hr : e.running = true)
    (hcpu : e.cpuRes = some c) (hmem : e.memRes = some m)
    (helc : elapsedCalc s.start e.now = some (ts, origin)) :
    loopStep opts pid e s =
      (match opts.duration with
       | some dur =>
         if ts > (dur : ℚ) then
           .inr (sampledState s pid e c m ts origin, .brokeDuration)
         else .inl (sampledState s pid e c m ts origin)
       | none => .inl (sampledState s pid e c m ts origin)) := by
  simp [loopStep, sampledState, hr, hcpu, hmem, helc]

/-- If ctrl-C fired during an iteration, any continuation state it
produces carries a cleared flag. -/
theorem loopStep_cancel_flag (opts : Opts) (pid : ℕ) (e : TickEnv)
    (s : LoopState) (hc : e.cancelDuringDelay = true) (s' : LoopState)
    (h : loopStep opts pid e s = Sum.inl s') : s'.flag = false := by
  cases hr : e.running with
  | false =>
    rw [loopStep_dead opts pid e s hr] at h
    cases h
    rfl
  | true =>
    rcases hcpu : e.cpuRes with _ | c
    · rw [loopStep_cpu_err opts pid e s hr hcpu] at h
      cases h
    · rcases hmem : e.memRes with _ | m
      · rw [loopStep_mem_err opts pid e s c hr hcpu hmem] at h
        cases h
      · rcases helc : elapsedCalc s.start e.now with _ | ⟨ts, origin⟩
        · rw [loopStep_elapsed_err opts pid e s c m hr hcpu hmem helc] at h
          cases h
        · rw [loopStep_sample opts pid e s c m ts origin hr hcpu hmem helc] at h
          rcases hdur : opts.duration with _ | dur <;> rw [hdur] at h <;>
            dsimp only at h
          · cases h
            simp [sampledState, hc]
          · by_cases hts : ts > (dur : ℚ)
            · rw [if_pos hts] at h
              cases h
            · rw [if_neg hts] at h
              cases h
              simp [sampledState, hc]

/-- C1: when handle construction is given a command (no pid), the spawn
succeeds (child id 42), and opening the psutil stats handle on the
child's id fails, `try_from` does fail with the process-access error —
but the effect trace shows the construction-failure path neither kills
nor reaps the already-spawned child: the child is leaked, contradicting
the claim that the child "is still terminated/reaped by the
construction-failure path itself". This evaluates the model at the
failing input. -/
theorem tryFrom_spawn_attach_failure_leaks_child :
    tryFrom optsNoDur ⟨fun _ => false, some 42⟩ =
      (.error "Failed access created process", [.spawnedChild 42]) ∧
    CtorEffect.killedChild 42 ∉ (tryFrom optsNoDur ⟨fun _ => false, some 42⟩).2 ∧
    CtorEffect.reapedChild 42 ∉ (tryFrom optsNoDur ⟨fun _ => false, some 42⟩).2 := by
  refine ⟨rfl, ?_, ?_⟩ <;> simp [tryFrom, optsNoDur]

/-- C4: destruction effects of `TrackedProcess::drop`. An Internal
handle whose child is still running has the child killed and then
reaped (blocking) before destruction returns; an External handle's
destruction performs only the read-only psutil liveness query — no
kill, no blocking wait, no try_wait on any child; an Internal handle
whose child has already exited performs only the non-blocking join
attempt that constitutes the liveness check — no kill, no blocking
wait. -/
theorem dropModel_effects (p c : ℕ) (env : DropEnv) :
    (env.penv.tryWait = TryWaitResult.stillRunning → env.killOk = true →
      env.waitOk = true →
      dropModel (.internal p c) env =
        .ok ([.tryWaitChild, .killChild, .waitChild], [])) ∧
    (dropModel (.external p) env = .ok ([.osLivenessCheck], []) ∧
      DropEffect.killChild ∉ [DropEffect.osLivenessCheck] ∧
      DropEffect.waitChild ∉ [DropEffect.osLivenessCheck] ∧
      DropEffect.tryWaitChild ∉ [DropEffect.osLivenessCheck]) ∧
    (∀ st, env.penv.tryWait = TryWaitResult.exited st →
      dropModel (.internal p c) env = .ok ([.tryWaitChild], []) ∧
      DropEffect.killChild ∉ [DropEffect.tryWaitChild] ∧
      DropEffect.waitChild ∉ [DropEffect.tryWaitChild]) := by
  refine ⟨?_, ⟨?_, by simp, by simp, by simp⟩, ?_⟩
  · intro h1 h2 h3
    simp [dropModel, isRunningModel, h1, h2, h3]
  · cases hos : env.penv.osRunning <;> simp [dropModel, isRunningModel, hos]
  · intro st h
    exact ⟨by simp [dropModel, isRunningModel, h], by simp, by simp⟩

/-- C4 witness: a concrete Internal handle with a still-running child,
whose kill and wait both succeed, is killed then reaped at drop. -/
theorem dropModel_effects_witness :
    dropModel (.internal 1 1) ⟨⟨.stillRunning, true⟩, true, true⟩ =
      .ok ([.tryWaitChild, .killChild, .waitChild], []) :=
  (dropModel_effects 1 1 ⟨⟨.stillRunning, true⟩, true, true⟩).1 rfl rfl rfl

/-- C5: `is_running` on an Internal handle is decided solely by the
non-blocking `try_wait` on the owned child — it returns `false` for any
exit status, `true` while the child runs, never consults the OS-level
psutil liveness query, and never performs a blocking wait; on an
External handle it delegates to the psutil liveness query. -/
theorem isRunningModel_spec (p c : ℕ) (env : ProcEnv) :
    (∀ st, env.tryWait = TryWaitResult.exited st →
      isRunningModel (.internal p c) env = .ok (false, [.tryWaitChild])) ∧
    (env.tryWait = TryWaitResult.stillRunning →
      isRunningModel (.internal p c) env = .ok (true, [.tryWaitChild])) ∧
    (∀ b effs, isRunningModel (.internal p c) env = .ok (b, effs) →
      DropEffect.osLivenessCheck ∉ effs ∧ DropEffect.waitChild ∉ effs) ∧
    isRunningModel (.external p) env = .ok (env.osRunning, [.osLivenessCheck]) := by
  refine ⟨?_, ?_, ?_, rfl⟩
  · intro st h; simp [isRunningModel, h]
  · intro h; simp [isRunningModel, h]
  · intro b effs h
    cases htw : env.tryWait <;> simp [isRunningModel, htw] at h
    · obtain ⟨h1, h2⟩ := h
      subst h2
      exact ⟨by simp, by simp⟩
    · obtain ⟨h1, h2⟩ := h
      subst h2
      exact ⟨by simp, by simp⟩

/-- C5 witness: a concrete Internal handle whose child exited with
status 0 is reported not running, via try_wait only. -/
theorem isRunningModel_spec_witness :
    isRunningModel (.internal 3 3) ⟨.exited 0, true⟩ =
      .ok (false, [.tryWaitChild]) :=
  (isRunningModel_spec 3 3 ⟨.exited 0, true⟩).1 0 rfl

/-- C9 counterexample: at teardown of an Internal handle, a failure of
the liveness check itself — `try_wait` returning `Err` — is not reported
as a warning: `is_running` panics from inside `drop`, aborting the
program. This refutes "no failure observed while checking, terminating,
or reaping the child at teardown ever raises a further error, crashes,
or aborts the program". -/
theorem drop_tryWait_error_panics :
    dropModel (.internal 7 7) ⟨⟨.err, true⟩, true, true⟩ =
      .error "Can not check if child process can be joined" := rfl

/-- C9 amended: provided the non-blocking join check itself does not
error, teardown of an Internal handle always returns normally: a kill
failure only prints a warning (and skips the wait), and a wait failure
after a successful kill only prints a warning. (A `try_wait` error, by
contrast, panics — see the counterexample.) -/
theorem drop_kill_wait_failures_warn_only (p c : ℕ) (env : DropEnv)
    (h : env.penv.tryWait ≠ TryWaitResult.err) :
    (∃ r, dropModel (.internal p c) env = .ok r) ∧
    (env.penv.tryWait = TryWaitResult.stillRunning → env.killOk = false →
      dropModel (.internal p c) env =
        .ok ([.tryWaitChild, .killChild],
          ["Warning: can not kill child process"])) ∧
    (env.penv.tryWait = TryWaitResult.stillRunning → env.killOk = true →
      env.waitOk = false →
      dropModel (.internal p c) env =
        .ok ([.tryWaitChild, .killChild, .waitChild],
          ["Warning: Can not join the child process after killing it"])) := by
  refine ⟨?_, ?_, ?_⟩
  · cases htw : env.penv.tryWait with
    | err => exact absurd htw h
    | exited st =>
      exact ⟨([.tryWaitChild], []), by simp [dropModel, isRunningModel, htw]⟩
    | stillRunning =>
      cases hk : env.killOk
      · exact ⟨([.tryWaitChild, .killChild],
          ["Warning: can not kill child process"]),
          by simp [dropModel, isRunningModel, htw, hk]⟩
      · cases hw : env.waitOk
        · exact ⟨([.tryWaitChild, .killChild, .waitChild],
            ["Warning: Can not join the child process after killing it"]),
            by simp [dropModel, isRunningModel, htw, hk, hw]⟩
        · exact ⟨([.tryWaitChild, .killChild, .waitChild], []),
            by simp [dropModel, isRunningModel, htw, hk, hw]⟩
  · intro htw hk; simp [dropModel, isRunningModel, htw, hk]
  · intro htw hk hw; simp [dropModel, isRunningModel, htw, hk, hw]

/-- C9 amended witness: a concrete teardown whose kill fails produces
the kill warning and still returns normally. -/
theorem drop_kill_wait_failures_warn_only_witness :
    dropModel (.internal 2 2) ⟨⟨.stillRunning, true⟩, false, true⟩ =
      .ok ([.tryWaitChild, .killChild],
        ["Warning: can not kill child process"]) :=
  ((drop_kill_wait_failures_warn_only 2 2 ⟨⟨.stillRunning, true⟩, false, true⟩
    (by decide)).2.1) rfl rfl

/-- C2 counterexample: ctrl-C fires during the delay between tick 1 and
tick 2 (`tickCancel.cancelDuringDelay = true`, the only cancellation
event in the schedule), yet the tick-2 sample is still appended: the
flag is checked at the top of the loop BEFORE the delay, not after it.
The recording ends at tick 2 (length 2), not at tick 1 as the claim
demands; the third scheduled tick confirms nothing later is taken. -/
theorem cancel_during_delay_still_samples :
    (runLoop optsNoDur 42 [tickOk, tickCancel, tickOk] initState).1.recording.length = 2 ∧
    (runLoop optsNoDur 42 [tickOk, tickCancel, tickOk] initState).1.recording.length ≠ 1 := by
  norm_num [runLoop, loopStep, elapsedCalc, optsNoDur, tickOk, tickCancel,
    initState]

/-- C2 amended: the CancellationFlag is checked at the top of each
iteration, BEFORE the fixed delay. If the flag is set during iteration
k+1 (e.g. during its delay), everything after that iteration is
irrelevant — the loop stops at the next top-of-loop check — and when
tick k+1's measurement goes through, its Sample is still appended: the
Recording ends exactly at tick k+1, not tick k. -/
theorem cancel_observed_at_next_top_check (opts : Opts) (pid : ℕ)
    (s : LoopState) (e : TickEnv) (rest : List TickEnv)
    (hc : e.cancelDuringDelay = true) :
    runLoop opts pid (e :: rest) s = runLoop opts pid [e] s ∧
    (s.flag = true → e.running = true →
      ∀ c m ts origin, e.cpuRes = some c → e.memRes = some m →
        elapsedCalc s.start e.now = some (ts, origin) →
        (runLoop opts pid (e :: rest) s).1.recording =
          s.recording ++ [⟨ts, pid, c, m.2 / 1000, m.1 / 1000⟩]) := by
  have key : runLoop opts pid (e :: rest) s = runLoop opts pid [e] s := by
    by_cases hf : s.flag = false
    · rw [runLoop_flag_false _ _ _ _ hf, runLoop_flag_false _ _ _ _ hf]
    · have hf' : s.flag = true := by revert hf; cases s.flag <;> simp
      rw [runLoop_cons _ _ _ _ _ hf', runLoop_cons _ _ _ _ _ hf']
      cases hstep : loopStep opts pid e s with
      | inl s' =>
        have hsf := loopStep_cancel_flag opts pid e s hc s' hstep
        dsimp only
        rw [runLoop_flag_false _ _ _ _ hsf, runLoop_flag_false _ _ _ _ hsf]
      | inr r => rfl
  refine ⟨key, ?_⟩
  intro hf' hr c m ts origin hcpu hmem helc
  rw [key, runLoop_cons _ _ _ _ _ hf',
    loopStep_sample opts pid e s c m ts origin hr hcpu hmem helc]
  have hflag : (sampledState s pid e c m ts origin).flag = false := by
    simp [sampledState, hc]
  rcases hdur : opts.duration with _ | dur
  · dsimp only
    rw [runLoop_flag_false _ _ _ _ hflag]
    simp [sampledState]
  · dsimp only
    by_cases hts : ts > (dur : ℚ)
    · rw [if_pos hts]
      simp [sampledState]
    · rw [if_neg hts]
      dsimp only
      rw [runLoop_flag_false _ _ _ _ hflag]
      simp [sampledState]

/-- C2 amended witness: a one-tick schedule whose delay is interrupted
by ctrl-C still produces that tick's sample. -/
theorem cancel_observed_at_next_top_check_witness :
    (runLoop optsNoDur 42 [tickCancel] initState).1.recording =
      [⟨0, 42, 20, 3000 / 1000, 2000 / 1000⟩] := by
  have h := (cancel_observed_at_next_top_check optsNoDur 42 initState tickCancel
    [] rfl).2 rfl rfl 20 (2000, 3000) 0 7 rfl rfl rfl
  simpa [initState] using h

/-- C6 counterexample: a schedule with no ctrl-C event at all
(`tickDead.cancelDuringDelay = false`) in which the target has exited:
the sampling loop itself stores false to the shared flag (one loop-body
store, and the flag ends cleared) — refuting "no other code path — in
particular not the sampling loop itself — ever writes the flag, and the
loop only reads it". -/
theorem loop_stores_flag_on_target_exit :
    (runLoop optsNoDur 42 [tickDead] initState).1.loopFlagStores = 1 ∧
    (runLoop optsNoDur 42 [tickDead] initState).1.flag = false ∧
    tickDead.cancelDuringDelay = false := by
  norm_num [runLoop, loopStep, optsNoDur, tickDead, initState]

/-- C6 amended: the flag is written by the interrupt handler AND by the
sampling loop itself, which stores false when a tick finds the target
no longer running; on runs where the target stays alive throughout, the
loop performs no store to the flag (the handler is then the only
writer). -/
theorem loop_no_flag_store_when_alive (opts : Opts) (pid : ℕ) :
    ∀ (envs : List TickEnv) (s : LoopState),
      (∀ e ∈ envs, e.running = true) →
      (runLoop opts pid envs s).1.loopFlagStores = s.loopFlagStores := by
  intro envs
  induction envs with
  | nil =>
    intro s _
    rw [runLoop_nil_fst]
  | cons e rest ih =>
    intro s halive
    by_cases hf : s.flag = false
    · rw [runLoop_flag_false _ _ _ _ hf]
    · have hf' : s.flag = true := by revert hf; cases s.flag <;> simp
      rw [runLoop_cons _ _ _ _ _ hf']
      have hr : e.running = true := halive e (List.mem_cons_self e rest)
      have hrest : ∀ e' ∈ rest, e'.running = true :=
        fun e' he' => halive e' (List.mem_cons_of_mem e he')
      rcases hcpu : e.cpuRes with _ | c
      · rw [loopStep_cpu_err opts pid e s hr hcpu]
      · rcases hmem : e.memRes with _ | m
        · rw [loopStep_mem_err opts pid e s c hr hcpu hmem]
        · rcases helc : elapsedCalc s.start e.now with _ | ⟨ts, origin⟩
          · rw [loopStep_elapsed_err opts pid e s c m hr hcpu hmem helc]
          · rw [loopStep_sample opts pid e s c m ts origin hr hcpu hmem helc]
            rcases hdur : opts.duration with _ | dur
            · dsimp only
              rw [ih (sampledState s pid e c m ts origin) hrest]
              rfl
            · dsimp only
              by_cases hts : ts > (dur : ℚ)
              · rw [if_pos hts]
                rfl
              · rw [if_neg hts]
                dsimp only
                rw [ih (sampledState s pid e c m ts origin) hrest]
                rfl

/-- C6 amended witness: one live tick performs no loop-body store. -/
theorem loop_no_flag_store_when_alive_witness :
    (runLoop optsNoDur 42 [tickOk] initState).1.loopFlagStores = 0 := by
  have h := loop_no_flag_store_when_alive optsNoDur 42 [tickOk] initState
    (by intro e he; rw [List.mem_singleton] at he; subst he; rfl)
  simpa [initState] using h

/-- C7 counterexample: one sample is accumulated, then `cpu_percent()`
errs on a tick where `is_running()` reported true. The run aborts with
a panic (fatal, surfaced), but `postReport` yields `none` although the
accumulated recording is nonempty: the POST phase never runs on panic,
so partial results ARE discarded — refuting the second half of the
claim. -/
theorem stats_failure_discards_partial_recording :
    (runLoop optsNoDur 42 [tickOk, tickCpuErr] initState).1.recording.length = 1 ∧
    (runLoop optsNoDur 42 [tickOk, tickCpuErr] initState).2 =
      .panicked "cpu_percent unwrap failed" ∧
    postReport (runLoop optsNoDur 42 [tickOk, tickCpuErr] initState) = none := by
  norm_num [runLoop, loopStep, elapsedCalc, postReport, optsNoDur, tickOk,
    tickCpuErr, initState]

/-- C7 amended: a failure of `cpu_percent()` or `memory_info()` on a
tick where `is_running()` reported true is fatal for the run — the loop
stops with a panic, keeping the recording accumulated so far unchanged
— but that Recording is NOT made available to downstream reporting: the
POST phase is skipped when the run panics. -/
theorem stats_failure_panics_and_discards (opts : Opts) (pid : ℕ)
    (s : LoopState) (e : TickEnv) (rest : List TickEnv)
    (hf : s.flag = true) (hr : e.running = true)
    (hfail : e.cpuRes = none ∨ ∃ c, e.cpuRes = some c ∧ e.memRes = none) :
    (∃ msg, (runLoop opts pid (e :: rest) s).2 = .panicked msg) ∧
    (runLoop opts pid (e :: rest) s).1.recording = s.recording ∧
    postReport (runLoop opts pid (e :: rest) s) = none := by
  rw [runLoop_cons _ _ _ _ _ hf]
  rcases hfail with hcpu | ⟨c, hcpu, hmem⟩
  · rw [loopStep_cpu_err opts pid e s hr hcpu]
    exact ⟨⟨_, rfl⟩, rfl, rfl⟩
  · rw [loopStep_mem_err opts pid e s c hr hcpu hmem]
    exact ⟨⟨_, rfl⟩, rfl, rfl⟩

/-- C7 amended witness: a concrete failing tick from the initial state
yields no reported recording. -/
theorem stats_failure_panics_and_discards_witness :
    postReport (runLoop optsNoDur 42 [tickCpuErr] initState) = none :=
  (stats_failure_panics_and_discards optsNoDur 42 initState tickCpuErr []
    rfl rfl (Or.inl rfl)).2.2

/-- C8 counterexample: with duration limit 100 configured, a run that
ctrl-C cancels after its first tick stops with a recording whose last
(and only) Sample has timestamp 0, which does not exceed 100 — refuting
"on every run the loop stops only after appending the Sample whose
elapsed time first exceeds D: the last Sample's timestamp is the first
one to exceed D". -/
theorem duration_run_can_stop_below_limit :
    optsDur100.duration = some 100 ∧
    (runLoop optsDur100 42 [tickCancel] initState).1.recording.map Sample.ts = [0] ∧
    ¬ ((0 : ℚ) > 100) := by
  refine ⟨rfl, ?_, by norm_num⟩
  norm_num [runLoop, loopStep, elapsedCalc, optsDur100, tickCancel, initState]

/-- C8 amended: with a duration limit D configured, no Sample is ever
appended after the first one whose timestamp exceeds D — every Sample
except possibly the last satisfies ts ≤ D — and whenever the loop stops
via the duration break, the last Sample's timestamp does exceed D. (The
loop may stop earlier through cancellation or target exit, in which
case no Sample exceeds D at all.) -/
theorem duration_break_sample_is_last (opts : Opts) (pid : ℕ) (D : ℕ)
    (hd : opts.duration = some D) :
    ∀ (envs : List TickEnv) (s : LoopState),
      (∀ x ∈ s.recording, x.ts ≤ (D : ℚ)) →
      (∀ x ∈ (runLoop opts pid envs s).1.recording.dropLast, x.ts ≤ (D : ℚ)) ∧
      ((runLoop opts pid envs s).2 = .brokeDuration →
        ∃ l, (runLoop opts pid envs s).1.recording.getLast? = some l ∧
          (D : ℚ) < l.ts) := by
  intro envs
  induction envs with
  | nil =>
    intro s hall
    constructor
    · intro x hx
      rw [runLoop_nil_fst] at hx
      exact hall x (List.dropLast_subset s.recording hx)
    · intro hk
      by_cases hf : s.flag = false
      · rw [runLoop_flag_false _ _ _ _ hf] at hk
        cases hk
      · simp [runLoop, hf] at hk
  | cons e rest ih =>
    intro s hall
    by_cases hf : s.flag = false
    · rw [runLoop_flag_false _ _ _ _ hf]
      exact ⟨fun x hx => hall x (List.dropLast_subset s.recording hx),
        fun hk => by cases hk⟩
    · have hf' : s.flag = true := by revert hf; cases s.flag <;> simp
      rw [runLoop_cons _ _ _ _ _ hf']
      cases hr : e.running with
      | false =>
        rw [loopStep_dead opts pid e s hr]
        exact ih _ hall
      | true =>
        rcases hcpu : e.cpuRes with _ | c
        · rw [loopStep_cpu_err opts pid e s hr hcpu]
          exact ⟨fun x hx => hall x (List.dropLast_subset s.recording hx),
            fun hk => by cases hk⟩
        · rcases hmem : e.memRes with _ | m
          · rw [loopStep_mem_err opts pid e s c hr hcpu hmem]
            exact ⟨fun x hx => hall x (List.dropLast_subset s.recording hx),
              fun hk => by cases hk⟩
          · rcases helc : elapsedCalc s.start e.now with _ | ⟨ts, origin⟩
            · rw [loopStep_elapsed_err opts pid e s c m hr hcpu hmem helc]
              exact ⟨fun x hx => hall x (List.dropLast_subset s.recording hx),
                fun hk => by cases hk⟩
            · rw [loopStep_sample opts pid e s c m ts origin hr hcpu hmem helc,
                hd]
              dsimp only
              by_cases hts : ts > (D : ℚ)
              · rw [if_pos hts]
                dsimp only
                constructor
                · intro x hx
                  simp only [sampledState, List.dropLast_concat] at hx
                  exact hall x hx
                · intro _
                  refine ⟨⟨ts, pid, c, m.2 / 1000, m.1 / 1000⟩, ?_, hts⟩
                  simp [sampledState, List.getLast?_concat]
              · rw [if_neg hts]
                dsimp only
                refine ih (sampledState s pid e c m ts origin) ?_
                intro x hx
                simp only [sampledState, List.mem_append,
                  List.mem_singleton] at hx
                rcases hx with hx | rfl
                · exact hall x hx
                · exact le_of_not_lt hts

/-- C8 amended witness: a concrete run whose second tick's elapsed time
(200) first exceeds the limit 100 stops via the duration break with
that sample last. -/
theorem duration_break_sample_is_last_witness :
    ∃ l, (runLoop optsDur100 42 [tickOk, tickLate] initState).1.recording.getLast? =
      some l ∧ ((100 : ℕ) : ℚ) < l.ts :=
  (duration_break_sample_is_last optsDur100 42 100 rfl [tickOk, tickLate]
    initState (by simp [initState])).2
    (by norm_num [runLoop, loopStep, elapsedCalc, optsDur100, tickOk, tickLate,
      initState])

/-- C10: every Sample appended to the Recording carries resident and
virtual memory equal to the raw byte figures of its tick
integer-divided by 1000 (kilobytes with truncation), so both fields are
in the same unit and never exceed the raw byte values. -/
theorem samples_memory_div_1000 (opts : Opts) (pid : ℕ) :
    ∀ (envs : List TickEnv) (s : LoopState) (x : Sample),
      x ∈ (runLoop opts pid envs s).1.recording →
      x ∈ s.recording ∨
      ∃ e ∈ envs, ∃ r v, e.memRes = some (r, v) ∧
        x.rss = r / 1000 ∧ x.vsize = v / 1000 ∧ x.rss ≤ r ∧ x.vsize ≤ v := by
  intro envs
  induction envs with
  | nil =>
    intro s x hx
    rw [runLoop_nil_fst] at hx
    exact Or.inl hx
  | cons e rest ih =>
    intro s x hx
    by_cases hf : s.flag = false
    · rw [runLoop_flag_false _ _ _ _ hf] at hx
      exact Or.inl hx
    · have hf' : s.flag = true := by revert hf; cases s.flag <;> simp
      rw [runLoop_cons _ _ _ _ _ hf'] at hx
      have lift : ∀ s₀ : LoopState,
          (x ∈ s₀.recording ∨ ∃ e' ∈ rest, ∃ r v, e'.memRes = some (r, v) ∧
            x.rss = r / 1000 ∧ x.vsize = v / 1000 ∧ x.rss ≤ r ∧ x.vsize ≤ v) →
          s₀.recording = s.recording →
          x ∈ s.recording ∨ ∃ e' ∈ e :: rest, ∃ r v, e'.memRes = some (r, v) ∧
            x.rss = r / 1000 ∧ x.vsize = v / 1000 ∧ x.rss ≤ r ∧ x.vsize ≤ v := by
        rintro s₀ (hmem | ⟨e', he', hrest⟩) hrec
        · exact Or.inl (hrec ▸ hmem)
        · exact Or.inr ⟨e', List.mem_cons_of_mem e he', hrest⟩
      cases hr : e.running with
      | false =>
        rw [loopStep_dead opts pid e s hr] at hx
        exact lift _ (ih _ x hx) rfl
      | true =>
        rcases hcpu : e.cpuRes with _ | c
        · rw [loopStep_cpu_err opts pid e s hr hcpu] at hx
          exact Or.inl hx
        · rcases hmem : e.memRes with _ | m
          · rw [loopStep_mem_err opts pid e s c hr hcpu hmem] at hx
            exact Or.inl hx
          · rcases helc : elapsedCalc s.start e.now with _ | ⟨ts, origin⟩
            · rw [loopStep_elapsed_err opts pid e s c m hr hcpu hmem helc] at hx
              exact Or.inl hx
            · rw [loopStep_sample opts pid e s c m ts origin hr hcpu hmem helc]
                at hx
              have hsample : ∀ hx' : x ∈ (sampledState s pid e c m ts origin).recording,
                  x ∈ s.recording ∨ ∃ e' ∈ e :: rest, ∃ r v,
                    e'.memRes = some (r, v) ∧ x.rss = r / 1000 ∧
                    x.vsize = v / 1000 ∧ x.rss ≤ r ∧ x.vsize ≤ v := by
                intro hx'
                simp only [sampledState, List.mem_append, List.mem_singleton]
                  at hx'
                rcases hx' with hx' | rfl
                · exact Or.inl hx'
                · refine Or.inr ⟨e, List.mem_cons_self e rest, m.1, m.2,
                    by rw [hmem], rfl, rfl, Nat.div_le_self _ _,
                    Nat.div_le_self _ _⟩
              rcases hdur : opts.duration with _ | dur <;> rw [hdur] at hx <;>
                dsimp only at hx
              · rcases ih _ x hx with hmem' | hrest
                · exact hsample hmem'
                · obtain ⟨e', he', hr'⟩ := hrest
                  exact Or.inr ⟨e', List.mem_cons_of_mem e he', hr'⟩
              · by_cases hts : ts > (dur : ℚ)
                · rw [if_pos hts] at hx
                  dsimp only at hx
                  exact hsample hx
                · rw [if_neg hts] at hx
                  dsimp only at hx
                  rcases ih _ x hx with hmem' | hrest
                  · exact hsample hmem'
                  · obtain ⟨e', he', hr'⟩ := hrest
                    exact Or.inr ⟨e', List.mem_cons_of_mem e he', hr'⟩

/-- The sampling loop preserves `LoopInv` down to an exhausted
schedule, provided the remaining clock instants are chronological. -/
theorem runLoop_preserves_inv (opts : Opts) (pid : ℕ) :
    ∀ (envs : List TickEnv) (s : LoopState),
      List.Pairwise (fun a b => a.now ≤ b.now) envs →
      LoopInv envs s →
      LoopInv [] (runLoop opts pid envs s).1 := by
  intro envs
  induction envs with
  | nil =>
    intro s _ hinv
    rw [runLoop_nil_fst]
    exact hinv
  | cons e rest ih =>
    intro s hmono hinv
    obtain ⟨hpair, hmono'⟩ := List.pairwise_cons.mp hmono
    by_cases hf : s.flag = false
    · rw [runLoop_flag_false _ _ _ _ hf]
      exact hinv.mono (fun e' he' => absurd he' (List.not_mem_nil e'))
    · have hf' : s.flag = true := by revert hf; cases s.flag <;> simp
      rw [runLoop_cons _ _ _ _ _ hf']
      cases hr : e.running with
      | false =>
        rw [loopStep_dead opts pid e s hr]
        exact ih _ hmono' (hinv.mono (fun e' he' => List.mem_cons_of_mem e he'))
      | true =>
        rcases hcpu : e.cpuRes with _ | c
        · rw [loopStep_cpu_err opts pid e s hr hcpu]
          exact hinv.nil_of_fields rfl rfl
        · rcases hmem : e.memRes with _ | m
          · rw [loopStep_mem_err opts pid e s c hr hcpu hmem]
            exact hinv.nil_of_fields rfl rfl
          · rcases hstart : s.start with _ | t
            · rw [loopStep_sample opts pid e s c m 0 e.now hr hcpu hmem
                (by rw [hstart]; simp [elapsedCalc])]
              have hrecnil : s.recording = [] := hinv.2.2.1.mp hstart
              have hinv' : LoopInv rest (sampledState s pid e c m 0 e.now) := by
                refine ⟨?_, ?_, ?_, ?_, ?_⟩
                · simp [sampledState, hrecnil]
                · simp [sampledState, hrecnil]
                · simp [sampledState, hrecnil]
                · intro t' ht' e' he'
                  simp only [sampledState] at ht'
                  cases ht'
                  exact hpair e' he'
                · intro t' ht' l hl e' he'
                  simp only [sampledState] at ht'
                  cases ht'
                  simp only [sampledState, hrecnil, List.nil_append,
                    List.getLast?_singleton, Option.mem_some_iff] at hl
                  subst hl
                  simpa using sub_nonneg.mpr (hpair e' he')
              rcases hdur : opts.duration with _ | dur
              · dsimp only
                exact ih _ hmono' hinv'
              · dsimp only
                by_cases hts : (0 : ℚ) > (dur : ℚ)
                · rw [if_pos hts]
                  exact hinv'.mono (fun e' he' => absurd he' (List.not_mem_nil e'))
                · rw [if_neg hts]
                  exact ih _ hmono' hinv'
            · by_cases hlt : e.now < t
              · rw [loopStep_elapsed_err opts pid e s c m hr hcpu hmem
                  (by rw [hstart]; simp [elapsedCalc, hlt])]
                exact hinv.nil_of_fields rfl rfl
              · rw [loopStep_sample opts pid e s c m (e.now - t) t hr hcpu hmem
                  (by rw [hstart]; simp [elapsedCalc, hlt])]
                obtain ⟨h1, h2, h3, h4, h5⟩ := hinv
                have hrecne : s.recording ≠ [] := by
                  intro hnil
                  rw [h3.mpr hnil] at hstart
                  cases hstart
                have hinv' : LoopInv rest
                    (sampledState s pid e c m (e.now - t) t) := by
                  refine ⟨?_, ?_, ?_, ?_, ?_⟩
                  · simp only [sampledState]
                    refine List.chain'_append.mpr
                      ⟨h1, List.chain'_singleton _, ?_⟩
                    intro a ha b hb
                    simp only [List.head?_cons, Option.mem_some_iff] at hb
                    subst hb
                    exact h5 t hstart a ha e (List.mem_cons_self e rest)
                  · simp only [sampledState]
                    rw [List.head?_append_of_ne_nil _ hrecne]
                    exact h2
                  · simp [sampledState]
                  · intro t' ht' e' he'
                    simp only [sampledState] at ht'
                    cases ht'
                    exact h4 t hstart e' (List.mem_cons_of_mem e he')
                  · intro t' ht' l hl e' he'
                    simp only [sampledState] at ht'
                    cases ht'
                    simp only [sampledState, List.getLast?_concat,
                      Option.mem_some_iff] at hl
                    subst hl
                    simpa using sub_le_sub_right (hpair e' he') t
                rcases hdur : opts.duration with _ | dur
                · dsimp only
                  exact ih _ hmono' hinv'
                · dsimp only
                  by_cases hts : e.now - t > (dur : ℚ)
                  · rw [if_pos hts]
                    exact hinv'.mono
                      (fun e' he' => absurd he' (List.not_mem_nil e'))
                  · rw [if_neg hts]
                    exact ih _ hmono' hinv'

/-- C3: for every run over a chronologically ordered schedule, the
first Sample's timestamp equals 0, and timestamps are non-decreasing in
capture order. The elapsed-time origin is established only when the
first accepted sample is taken (the baseline is `none` until then and
the first sample's timestamp is 0 no matter how many initial ticks were
skipped), so the pre-sample delay appears in no timestamp. -/
theorem first_ts_zero_and_monotone (opts : Opts) (pid : ℕ)
    (envs : List TickEnv)
    (hmono : List.Pairwise (fun a b => a.now ≤ b.now) envs) :
    (∀ x ∈ (runLoop opts pid envs initState).1.recording.head?, x.ts = 0) ∧
    List.Chain' (· ≤ ·)
      ((runLoop opts pid envs initState).1.recording.map Sample.ts) := by
  have h := runLoop_preserves_inv opts pid envs initState hmono
    ⟨by simp [initState], by simp [initState], by simp [initState],
      by simp [initState], by simp [initState]⟩
  exact ⟨h.2.1, (List.chain'_map _).mpr h.1⟩

/-- C3 witness: a concrete two-tick run has first timestamp 0 and
non-decreasing timestamps. -/
theorem first_ts_zero_and_monotone_witness :
    List.Chain' (· ≤ ·)
      ((runLoop optsNoDur 42 [tickOk, tickLate] initState).1.recording.map
        Sample.ts) :=
  (first_ts_zero_and_monotone optsNoDur 42 [tickOk, tickLate]
    (by norm_num [tickOk, tickLate])).2

/-- C10 witness: the sample of a concrete one-tick run records
1234 / 1000 resident and 5678 / 1000 virtual kilobytes from the raw
byte figures (1234, 5678), each no larger than the raw value. -/
theorem samples_memory_div_1000_witness :
    ∃ e ∈ [tickOk], ∃ r v, e.memRes = some (r, v) ∧
      Sample.rss ⟨0, 42, 10, 5678 / 1000, 1234 / 1000⟩ = r / 1000 ∧
      Sample.vsize ⟨0, 42, 10, 5678 / 1000, 1234 / 1000⟩ = v / 1000 ∧
      Sample.rss ⟨0, 42, 10, 5678 / 1000, 1234 / 1000⟩ ≤ r ∧
      Sample.vsize ⟨0, 42, 10, 5678 / 1000, 1234 / 1000⟩ ≤ v := by
  have h := samples_memory_div_1000 optsNoDur 42 [tickOk] initState
    ⟨0, 42, 10, 5678 / 1000, 1234 / 1000⟩
    (by norm_num [runLoop, loopStep, elapsedCalc, optsNoDur, tickOk, initState])
  rcases h with h | h
  · simp [initState] at h
  · exact h

end Procrec
